import Mathlib

/-!
Verification of the response-parsing routine and the request handler of the
artisan-ai-backend service (app.py).

Text is modelled as `List Char`.  The Python string operations used by the
code (`split(sep)`, `replace(pat, "")`, `strip()`, `split()` on whitespace,
substring containment via `in`) are embedded as executable Lean functions
below, and the parsing logic of `generate_product_description`
(app.py lines 61-94) is reproduced step for step on top of them.
-/

/-- Whitespace characters recognised by Python `str.strip` / `str.split`. -/
def isWs (c : Char) : Bool :=
  c = ' ' || c = '\t' || c = '\n' || c = '\r' || c = '\x0b' || c = '\x0c'

/-- Convert a string literal to the character-list model of text. -/
def toL (s : String) : List Char :=
  s.data

/-- Substring containment, Python `pat in text`. -/
def containsSub (pat : List Char) : List Char → Bool
  | [] => pat.isPrefixOf []
  | c :: rest => pat.isPrefixOf (c :: rest) || containsSub pat rest

/-- Worker for `splitOn`: the `Nat` argument counts characters still to be
skipped because they belong to an already-matched separator occurrence. -/
def spAux (sep : List Char) : Nat → List Char → List (List Char)
  | 0, [] => [[]]
  | 0, c :: rest =>
    if sep ≠ [] ∧ sep.isPrefixOf (c :: rest) = true then
      [] :: spAux sep (sep.length - 1) rest
    else
      match spAux sep 0 rest with
      | [] => [[c]]
      | h :: t => (c :: h) :: t
  | _ + 1, [] => [[]]
  | n + 1, _ :: rest => spAux sep n rest

/-- Python `text.split(sep)` for a non-empty separator: split on every
non-overlapping occurrence of `sep`, scanning left to right. -/
def splitOn (sep text : List Char) : List (List Char) :=
  spAux sep 0 text

/-- Worker for `removeAll`, with the same skip-counter device as `spAux`. -/
def rmAux (pat : List Char) : Nat → List Char → List Char
  | 0, [] => []
  | 0, c :: rest =>
    if pat ≠ [] ∧ pat.isPrefixOf (c :: rest) = true then
      rmAux pat (pat.length - 1) rest
    else
      c :: rmAux pat 0 rest
  | _ + 1, [] => []
  | n + 1, _ :: rest => rmAux pat n rest

/-- Python `text.replace(pat, "")`: delete every non-overlapping occurrence
of `pat`, scanning left to right. -/
def removeAll (pat text : List Char) : List Char :=
  rmAux pat 0 text

/-- Worker for `splitWs`; `cur` accumulates the current token reversed. -/
def swAux : List Char → List Char → List (List Char)
  | cur, [] => if cur = [] then [] else [cur.reverse]
  | cur, c :: rest =>
    if isWs c then
      if cur = [] then swAux [] rest else cur.reverse :: swAux [] rest
    else
      swAux (c :: cur) rest

/-- Python `text.split()` with no argument: whitespace tokenisation dropping
empty tokens. -/
def splitWs (text : List Char) : List (List Char) :=
  swAux [] text

/-- Python `text.lstrip()`. -/
def lstrip (s : List Char) : List Char :=
  s.dropWhile isWs

/-- Python `text.rstrip()`. -/
def rstrip (s : List Char) : List Char :=
  (s.reverse.dropWhile isWs).reverse

/-- Python `text.strip()`. -/
def strip (s : List Char) : List Char :=
  rstrip (lstrip s)

/-- Python `text.split(pat)[-1]`: everything after the last occurrence of
`pat` (the whole text when `pat` does not occur). -/
def lastAfter (pat text : List Char) : List Char :=
  (splitOn pat text).getLastD []

/-- Python `text.split(pat)[0]`: everything before the first occurrence of
`pat` (the whole text when `pat` does not occur). -/
def firstBefore (pat text : List Char) : List Char :=
  (splitOn pat text).headD []

/-- The section delimiter of the prompt contract, `"---"` (app.py line 61). -/
def delimiter : List Char := toL "---"

/-- Bold product-description marker (app.py line 71). -/
def mPD : List Char := toL "**Product Description:**"

/-- Bold social-media-post marker (app.py line 73). -/
def mSMP : List Char := toL "**Social Media Post:**"

/-- Bold hashtags marker (app.py line 75). -/
def mHT : List Char := toL "**Hashtags:**"

/-- Plain fallback marker (app.py line 84). -/
def plainPD : List Char := toL "Product Description:"

/-- Plain fallback marker (app.py lines 85, 87). -/
def plainSMP : List Char := toL "Social Media Post:"

/-- Plain fallback marker (app.py line 78). -/
def plainHT : List Char := toL "Hashtags:"

/-- Default description placeholder (app.py line 64). -/
def defaultDescription : List Char := toL "Could not generate a full description."

/-- Default social-post placeholder (app.py line 65). -/
def defaultSocialPost : List Char := toL "Could not generate a social media post."

/-- The structured record produced by the parsing routine (spec §3). -/
structure ParsedCopy where
  description : List Char
  social_post : List Char
  hashtags : List (List Char)
deriving DecidableEq

/-- Initial state of the parse, app.py lines 63-66. -/
def initState : ParsedCopy :=
  ⟨defaultDescription, defaultSocialPost, []⟩

/-- One iteration of the `for part in parts` loop, app.py lines 70-76: an
`if`/`elif`/`elif` chain keyed on bold-marker containment. -/
def segStep (st : ParsedCopy) (part : List Char) : ParsedCopy :=
  if containsSub mPD part = true then
    { st with description := strip (removeAll mPD part) }
  else if containsSub mSMP part = true then
    { st with social_post := strip (removeAll mSMP part) }
  else if containsSub mHT part = true then
    { st with hashtags := splitWs (strip (removeAll mHT part)) }
  else st

/-- The whole segment loop, app.py lines 69-76. -/
def segmentPass (parts : List (List Char)) : ParsedCopy :=
  parts.foldl segStep initState

/-- Hashtags fallback, app.py lines 78-82. -/
def hashtagFallback (full_text : List Char) (st : ParsedCopy) : ParsedCopy :=
  if st.hashtags = [] ∧ containsSub plainHT full_text = true then
    if strip (lastAfter plainHT full_text) ≠ [] then
      { st with hashtags := splitWs (strip (lastAfter plainHT full_text)) }
    else st
  else st

/-- Description fallback, app.py lines 84-85. -/
def descFallback (full_text : List Char) (st : ParsedCopy) : ParsedCopy :=
  if st.description = [] ∧ containsSub plainPD full_text = true then
    { st with description :=
        if containsSub plainSMP full_text = true then
          strip (firstBefore plainSMP (lastAfter plainPD full_text))
        else strip (lastAfter plainPD full_text) }
  else st

/-- Social-post fallback, app.py lines 87-88. -/
def socialFallback (full_text : List Char) (st : ParsedCopy) : ParsedCopy :=
  if st.social_post = [] ∧ containsSub plainSMP full_text = true then
    { st with social_post :=
        if containsSub plainHT full_text = true then
          strip (firstBefore plainHT (lastAfter plainSMP full_text))
        else strip (lastAfter plainSMP full_text) }
  else st

/-- The full parsing routine of `generate_product_description`, app.py
lines 61-94, applied to the stripped model reply `full_text`. -/
def parse (full_text : List Char) : ParsedCopy :=
  socialFallback full_text
    (descFallback full_text
      (hashtagFallback full_text
        (segmentPass (splitOn delimiter full_text))))

/-- `generate_product_description`, app.py lines 25-97, with the external
model call replaced by its outcome `apiText` (`none` models a transport
failure or a reply object without usable text; an empty reply is rejected
at app.py line 54). -/
def generate_product_description (apiText : Option String) : Option ParsedCopy :=
  match apiText with
  | none => none
  | some t => if t.data = [] then none else some (parse (strip t.data))

/-- The two external collaborators the request handler can invoke. -/
inductive ExtCall where
  | enhanceImage
  | generateText
deriving DecidableEq

/-- Response body of the `/api/generate` handler: either an error message or
the combined success payload (app.py lines 117, 126, 131, 134-138). -/
inductive RespBody where
  | errorBody (msg : String)
  | okBody (url : String) (copy : ParsedCopy)
deriving DecidableEq

/-- `generate_content`, app.py lines 114-138, with the two external calls
replaced by their outcomes.  The second component of the result records,
in order, which external collaborators were actually invoked along the
executed control path.  `upload_and_enhance_image` (app.py lines 99-111)
yields `none` on failure; the handler treats a falsy URL (absent or empty)
as failure (app.py line 125). -/
def generate_content (hasImageField : Bool) (enhanceResult : Option String)
    (apiText : Option String) : (Nat × RespBody) × List ExtCall :=
  if hasImageField = false then
    ((400, RespBody.errorBody "No image file provided"), [])
  else
    match enhanceResult with
    | none => ((500, RespBody.errorBody "Failed to process image"), [ExtCall.enhanceImage])
    | some url =>
      if url = "" then
        ((500, RespBody.errorBody "Failed to process image"), [ExtCall.enhanceImage])
      else
        match generate_product_description apiText with
        | none =>
          ((500, RespBody.errorBody "Failed to generate content"),
            [ExtCall.enhanceImage, ExtCall.generateText])
        | some pc =>
          ((200, RespBody.okBody url pc),
            [ExtCall.enhanceImage, ExtCall.generateText])

/-- A hashtag token is well formed when it is non-empty and free of
whitespace. -/
def goodToken (tok : List Char) : Bool :=
  !tok.isEmpty && tok.all (fun c => !isWs c)

/-! ### Basic facts about `containsSub` -/

theorem containsSub_cons (pat : List Char) (c : Char) (rest : List Char) :
    containsSub pat (c :: rest) = (pat.isPrefixOf (c :: rest) || containsSub pat rest) :=
  rfl

theorem containsSub_tail_false {pat : List Char} {c : Char} {rest : List Char}
    (h : containsSub pat (c :: rest) = false) : containsSub pat rest = false := by
  rw [containsSub_cons, Bool.or_eq_false_iff] at h
  exact h.2

theorem isPrefixOf_false_of_containsSub_false {pat : List Char} {c : Char} {rest : List Char}
    (h : containsSub pat (c :: rest) = false) : pat.isPrefixOf (c :: rest) = false := by
  rw [containsSub_cons, Bool.or_eq_false_iff] at h
  exact h.1

theorem containsSub_of_leading {pat t : List Char} (h : pat <+: t) :
    containsSub pat t = true := by
  cases t with
  | nil =>
    show pat.isPrefixOf [] = true
    exact List.isPrefixOf_iff_prefix.mpr h
  | cons c rest =>
    rw [containsSub_cons, Bool.or_eq_true]
    exact Or.inl (List.isPrefixOf_iff_prefix.mpr h)

/-! ### Unfolding lemmas for `splitOn` -/

theorem spAux_skip (sep : List Char) : ∀ (n : Nat) (text : List Char),
    spAux sep n text = spAux sep 0 (text.drop n) := by
  intro n
  induction n with
  | zero => intro text; rfl
  | succ k ih =>
    intro text
    cases text with
    | nil => rfl
    | cons c rest => simpa [spAux] using ih rest

theorem splitOn_nil (sep : List Char) : splitOn sep [] = [[]] := rfl

theorem splitOn_cons_pos {sep : List Char} {c : Char} {rest : List Char}
    (hsep : sep ≠ []) (hpre : sep.isPrefixOf (c :: rest) = true) :
    splitOn sep (c :: rest) = [] :: splitOn sep ((c :: rest).drop sep.length) := by
  cases sep with
  | nil => exact absurd rfl hsep
  | cons s ss =>
    show spAux (s :: ss) 0 (c :: rest) = _
    rw [spAux, if_pos ⟨hsep, hpre⟩, spAux_skip]
    rfl

theorem splitOn_cons_neg {sep : List Char} {c : Char} {rest p : List Char}
    {ps : List (List Char)}
    (h : ¬(sep ≠ [] ∧ sep.isPrefixOf (c :: rest) = true))
    (hrec : splitOn sep rest = p :: ps) :
    splitOn sep (c :: rest) = (c :: p) :: ps := by
  show spAux sep 0 (c :: rest) = _
  rw [spAux, if_neg h]
  show (match spAux sep 0 rest with
    | [] => [[c]]
    | h :: t => (c :: h) :: t) = _
  rw [show spAux sep 0 rest = p :: ps from hrec]

theorem splitOn_no_occ {sep : List Char} (_hsep : sep ≠ []) :
    ∀ {t : List Char}, containsSub sep t = false → splitOn sep t = [t] := by
  intro t
  induction t with
  | nil => intro _; rfl
  | cons c rest ih =>
    intro h
    have hpre := isPrefixOf_false_of_containsSub_false h
    have htail := containsSub_tail_false h
    exact splitOn_cons_neg (by simp [hpre]) (ih htail)

theorem splitOn_boundary {sep : List Char} (hsep : sep ≠ []) :
    ∀ (x y : List Char), containsSub sep (x ++ sep.dropLast) = false →
      splitOn sep (x ++ (sep ++ y)) = x :: splitOn sep y := by
  intro x
  induction x with
  | nil =>
    intro y _
    rw [List.nil_append]
    cases sep with
    | nil => exact absurd rfl hsep
    | cons s ss =>
      have hpre : (s :: ss).isPrefixOf (s :: (ss ++ y)) = true := by
        have : (s :: ss) <+: (s :: ss) ++ y := List.prefix_append _ _
        rw [List.cons_append] at this
        exact List.isPrefixOf_iff_prefix.mpr this
      have h1 := splitOn_cons_pos hsep hpre
      rw [show (s :: ss) ++ y = s :: (ss ++ y) from rfl, h1, ← List.cons_append,
        List.drop_left]
  | cons c x' ih =>
    intro y h
    simp only [List.cons_append] at h
    have hnp : ¬(sep.isPrefixOf (c :: (x' ++ (sep ++ y))) = true) := by
      intro hp
      have hpre1 : sep <+: c :: (x' ++ (sep ++ y)) :=
        List.isPrefixOf_iff_prefix.mp hp
      have hdec : sep.dropLast ++ [sep.getLast hsep] = sep :=
        List.dropLast_append_getLast hsep
      have hshape : c :: (x' ++ (sep ++ y)) =
          (c :: (x' ++ sep.dropLast)) ++ ([sep.getLast hsep] ++ y) := by
        conv_lhs => rw [← hdec]
        simp [List.append_assoc]
      have hpre2 : (c :: (x' ++ sep.dropLast)) <+: c :: (x' ++ (sep ++ y)) := by
        rw [hshape]; exact List.prefix_append _ _
      have hlen : sep.length ≤ (c :: (x' ++ sep.dropLast)).length := by
        simp only [List.length_cons, List.length_append, List.length_dropLast]
        have : 0 < sep.length := List.length_pos.mpr hsep
        omega
      have hfin : sep <+: c :: (x' ++ sep.dropLast) :=
        List.prefix_of_prefix_length_le hpre1 hpre2 hlen
      have htrue := containsSub_of_leading hfin
      rw [htrue] at h
      simp at h
    have htail : containsSub sep (x' ++ sep.dropLast) = false :=
      containsSub_tail_false h
    have hrec := ih y htail
    rw [show (c :: x') ++ (sep ++ y) = c :: (x' ++ (sep ++ y)) from rfl]
    rw [splitOn_cons_neg (by simp [hnp]) hrec]

/-! ### Unfolding lemmas for `removeAll` -/

theorem rmAux_skip (pat : List Char) : ∀ (n : Nat) (text : List Char),
    rmAux pat n text = rmAux pat 0 (text.drop n) := by
  intro n
  induction n with
  | zero => intro text; rfl
  | succ k ih =>
    intro text
    cases text with
    | nil => rfl
    | cons c rest => simpa [rmAux] using ih rest

theorem removeAll_cons_pos {pat : List Char} {c : Char} {rest : List Char}
    (hpat : pat ≠ []) (hpre : pat.isPrefixOf (c :: rest) = true) :
    removeAll pat (c :: rest) = removeAll pat ((c :: rest).drop pat.length) := by
  cases pat with
  | nil => exact absurd rfl hpat
  | cons p ps =>
    show rmAux (p :: ps) 0 (c :: rest) = _
    rw [rmAux, if_pos ⟨hpat, hpre⟩, rmAux_skip]
    rfl

theorem removeAll_cons_neg {pat : List Char} {c : Char} {rest : List Char}
    (h : ¬(pat ≠ [] ∧ pat.isPrefixOf (c :: rest) = true)) :
    removeAll pat (c :: rest) = c :: removeAll pat rest := by
  show rmAux pat 0 (c :: rest) = _
  rw [rmAux, if_neg h]
  rfl

theorem removeAll_no_occ {pat : List Char} :
    ∀ {t : List Char}, containsSub pat t = false → removeAll pat t = t := by
  intro t
  induction t with
  | nil => intro _; rfl
  | cons c rest ih =>
    intro h
    have hpre := isPrefixOf_false_of_containsSub_false h
    have htail := containsSub_tail_false h
    rw [removeAll_cons_neg (by simp [hpre]), ih htail]

theorem removeAll_marker_clean {pat b : List Char} (hpat : pat ≠ [])
    (h : containsSub pat b = false) : removeAll pat (pat ++ b) = b := by
  cases hp : pat with
  | nil => exact absurd hp hpat
  | cons p ps =>
    rw [← hp]
    have hpre : pat.isPrefixOf (pat ++ b) = true :=
      List.isPrefixOf_iff_prefix.mpr (List.prefix_append _ _)
    have h1 : removeAll pat (pat ++ b) = removeAll pat ((pat ++ b).drop pat.length) := by
      rw [hp] at hpre ⊢
      rw [show (p :: ps) ++ b = p :: (ps ++ b) from rfl] at hpre ⊢
      exact removeAll_cons_pos (by simp) hpre
    rw [h1, List.drop_left, removeAll_no_occ h]

/-! ### Facts about whitespace tokenisation -/

theorem goodToken_reverse {cur : List Char} (hc : cur ≠ [])
    (hcur : ∀ c ∈ cur, isWs c = false) : goodToken cur.reverse = true := by
  simp only [goodToken, Bool.and_eq_true, List.all_eq_true]
  refine ⟨?_, ?_⟩
  · simp only [Bool.not_eq_true', List.isEmpty_iff, List.reverse_eq_nil_iff]
    · simpa using hc
  · intro x hx
    simp only [Bool.not_eq_true']
    exact hcur x (List.mem_reverse.mp hx)

theorem swAux_good : ∀ (rest cur : List Char), (∀ c ∈ cur, isWs c = false) →
    ∀ tok ∈ swAux cur rest, goodToken tok = true := by
  intro rest
  induction rest with
  | nil =>
    intro cur hcur tok htok
    by_cases hc : cur = []
    · simp [swAux, hc] at htok
    · simp only [swAux, if_neg hc, List.mem_singleton] at htok
      subst htok
      exact goodToken_reverse hc hcur
  | cons c rest ih =>
    intro cur hcur tok htok
    by_cases hws : isWs c
    · by_cases hc : cur = []
      · rw [swAux, if_pos hws, if_pos hc] at htok
        exact ih [] (by intro d hd; cases hd) tok htok
      · rw [swAux, if_pos hws, if_neg hc] at htok
        rcases List.mem_cons.mp htok with hh | hh
        · subst hh
          exact goodToken_reverse hc hcur
        · exact ih [] (by intro d hd; cases hd) tok hh
    · rw [swAux, if_neg hws] at htok
      refine ih (c :: cur) ?_ tok htok
      intro d hd
      rcases List.mem_cons.mp hd with hh | hh
      · subst hh; simpa using hws
      · exact hcur d hh

theorem splitWs_good {t tok : List Char} (h : tok ∈ splitWs t) : goodToken tok = true :=
  swAux_good t [] (by intro d hd; cases hd) tok h

theorem swAux_allWs : ∀ (w cur : List Char), (∀ c ∈ w, isWs c = true) →
    swAux cur w = if cur = [] then [] else [cur.reverse] := by
  intro w
  induction w with
  | nil => intro cur _; rfl
  | cons c rest ih =>
    intro cur hw
    have hc : isWs c = true := hw c (List.mem_cons_self c rest)
    have hrest : ∀ d ∈ rest, isWs d = true := by
      intro d hd; exact hw d (List.mem_cons_of_mem c hd)
    by_cases hcur : cur = []
    · rw [swAux, if_pos hc, if_pos hcur, ih [] hrest]
      simp [hcur]
    · rw [swAux, if_pos hc, if_neg hcur, ih [] hrest]
      simp [hcur]

theorem swAux_append_ws {w : List Char} (hw : ∀ c ∈ w, isWs c = true) :
    ∀ (s cur : List Char), swAux cur (s ++ w) = swAux cur s := by
  intro s
  induction s with
  | nil =>
    intro cur
    rw [List.nil_append, swAux_allWs w cur hw]
    rfl
  | cons c rest ih =>
    intro cur
    rw [List.cons_append, swAux, swAux]
    by_cases hws : isWs c
    · rw [if_pos hws, if_pos hws]
      by_cases hcur : cur = []
      · rw [if_pos hcur, if_pos hcur, ih]
      · rw [if_neg hcur, if_neg hcur, ih]
    · rw [if_neg hws, if_neg hws, ih]

theorem swAux_dropWhile : ∀ t : List Char, swAux [] (t.dropWhile isWs) = swAux [] t := by
  intro t
  induction t with
  | nil => rfl
  | cons c rest ih =>
    by_cases hws : isWs c
    · rw [List.dropWhile_cons_of_pos hws, ih, swAux, if_pos hws, if_pos rfl]
    · rw [List.dropWhile_cons_of_neg (by simpa using hws)]

theorem splitWs_rstrip (u : List Char) : splitWs (rstrip u) = splitWs u := by
  have hws : ∀ c ∈ (List.takeWhile isWs u.reverse).reverse, isWs c = true := by
    intro c hc
    exact List.mem_takeWhile_imp (List.mem_reverse.mp hc)
  have hdecomp : rstrip u ++ (List.takeWhile isWs u.reverse).reverse = u := by
    show (List.dropWhile isWs u.reverse).reverse ++ (List.takeWhile isWs u.reverse).reverse = u
    rw [← List.reverse_append, List.takeWhile_append_dropWhile, List.reverse_reverse]
  calc splitWs (rstrip u)
      = swAux [] (rstrip u ++ (List.takeWhile isWs u.reverse).reverse) :=
        (swAux_append_ws hws _ []).symm
    _ = splitWs u := by rw [hdecomp]; rfl

theorem splitWs_strip (s : List Char) : splitWs (strip s) = splitWs s := by
  rw [strip, splitWs_rstrip]
  show swAux [] (s.dropWhile isWs) = swAux [] s
  exact swAux_dropWhile s

/-! ### Stability lemmas for the segment pass and the fallbacks -/

theorem segStep_description_eq {st : ParsedCopy} {p : List Char}
    (h : containsSub mPD p = false) : (segStep st p).description = st.description := by
  rw [segStep, if_neg (by simp [h])]
  by_cases h2 : containsSub mSMP p = true
  · rw [if_pos h2]
  · rw [if_neg h2]
    by_cases h3 : containsSub mHT p = true
    · rw [if_pos h3]
    · rw [if_neg h3]

theorem segStep_social_eq {st : ParsedCopy} {p : List Char}
    (h : containsSub mSMP p = false) : (segStep st p).social_post = st.social_post := by
  rw [segStep]
  by_cases h1 : containsSub mPD p = true
  · rw [if_pos h1]
  · rw [if_neg h1, if_neg (by simp [h])]
    by_cases h3 : containsSub mHT p = true
    · rw [if_pos h3]
    · rw [if_neg h3]

theorem segStep_social_of_mPD {st : ParsedCopy} {p : List Char}
    (h : containsSub mPD p = true) : (segStep st p).social_post = st.social_post := by
  rw [segStep, if_pos h]

theorem segStep_hashtags_of_mPD {st : ParsedCopy} {p : List Char}
    (h : containsSub mPD p = true) : (segStep st p).hashtags = st.hashtags := by
  rw [segStep, if_pos h]

theorem foldl_segStep_description {ps : List (List Char)} :
    ∀ st : ParsedCopy, (∀ p ∈ ps, containsSub mPD p = false) →
      (ps.foldl segStep st).description = st.description := by
  induction ps with
  | nil => intro st _; rfl
  | cons p ps ih =>
    intro st h
    rw [List.foldl_cons, ih (segStep st p) (by intro q hq; exact h q (List.mem_cons_of_mem p hq)),
      segStep_description_eq (h p (List.mem_cons_self p ps))]

theorem foldl_segStep_social {ps : List (List Char)} :
    ∀ st : ParsedCopy, (∀ p ∈ ps, containsSub mSMP p = false) →
      (ps.foldl segStep st).social_post = st.social_post := by
  induction ps with
  | nil => intro st _; rfl
  | cons p ps ih =>
    intro st h
    rw [List.foldl_cons, ih (segStep st p) (by intro q hq; exact h q (List.mem_cons_of_mem p hq)),
      segStep_social_eq (h p (List.mem_cons_self p ps))]

theorem hashtagFallback_description (t : List Char) (st : ParsedCopy) :
    (hashtagFallback t st).description = st.description := by
  rw [hashtagFallback]
  split
  · split
    · rfl
    · rfl
  · rfl

theorem hashtagFallback_social (t : List Char) (st : ParsedCopy) :
    (hashtagFallback t st).social_post = st.social_post := by
  rw [hashtagFallback]
  split
  · split
    · rfl
    · rfl
  · rfl

theorem hashtagFallback_skip {t : List Char} {st : ParsedCopy}
    (h : st.hashtags ≠ []) : hashtagFallback t st = st := by
  rw [hashtagFallback, if_neg (by intro hc; exact h hc.1)]

theorem descFallback_hashtags (t : List Char) (st : ParsedCopy) :
    (descFallback t st).hashtags = st.hashtags := by
  rw [descFallback]
  split
  · rfl
  · rfl

theorem descFallback_social (t : List Char) (st : ParsedCopy) :
    (descFallback t st).social_post = st.social_post := by
  rw [descFallback]
  split
  · rfl
  · rfl

theorem descFallback_skip {t : List Char} {st : ParsedCopy}
    (h : st.description ≠ []) : descFallback t st = st := by
  rw [descFallback, if_neg (by intro hc; exact h hc.1)]

theorem socialFallback_hashtags (t : List Char) (st : ParsedCopy) :
    (socialFallback t st).hashtags = st.hashtags := by
  rw [socialFallback]
  split
  · rfl
  · rfl

theorem socialFallback_description (t : List Char) (st : ParsedCopy) :
    (socialFallback t st).description = st.description := by
  rw [socialFallback]
  split
  · rfl
  · rfl

theorem socialFallback_skip {t : List Char} {st : ParsedCopy}
    (h : st.social_post ≠ []) : socialFallback t st = st := by
  rw [socialFallback, if_neg (by intro hc; exact h hc.1)]

/-! ### Claim theorems -/

/-- C4: the parsing routine is a total function: for every input text,
including the empty text and arbitrarily malformed text, it produces a
`ParsedCopy` record (totality of `parse` is the shallow-embedding image of
"raises no exception"), and on the empty input every field holds exactly
its default value. -/
theorem c4_total_and_empty_defaults :
    (∀ t : List Char, ∃ r : ParsedCopy, parse t = r) ∧
    parse [] = ⟨toL "Could not generate a full description.",
      toL "Could not generate a social media post.", []⟩ :=
  ⟨fun t => ⟨parse t, rfl⟩, by decide⟩

/-- C6: whatever the copy-generation outcome would have been, a request with
an image whose enhancement call yields no URL is answered with status 500
and the "Failed to process image" error body, and the recorded external-call
trace is exactly the single enhancement call, so the generation client is
never invoked. -/
theorem c6_enhancement_failure_short_circuits (apiText : Option String) :
    (generate_content true none apiText).1 =
      (500, RespBody.errorBody "Failed to process image") ∧
    (generate_content true none apiText).2 = [ExtCall.enhanceImage] :=
  ⟨rfl, rfl⟩

/-- C7: a request without the image form field is answered with status 400
and the "No image file provided" error body, with an empty external-call
trace: neither the enhancement client nor the generation client runs. -/
theorem c7_missing_image_field (enhanceResult apiText : Option String) :
    generate_content false enhanceResult apiText =
      ((400, RespBody.errorBody "No image file provided"), []) :=
  rfl

/-- C8: the parsing routine is deterministic: two runs on equal raw texts
agree field by field (equal description, equal social post, elementwise
equal hashtag lists). -/
theorem c8_deterministic (t1 t2 : List Char) (h : t1 = t2) :
    (parse t1).description = (parse t2).description ∧
    (parse t1).social_post = (parse t2).social_post ∧
    (parse t1).hashtags = (parse t2).hashtags := by
  subst h
  exact ⟨rfl, rfl, rfl⟩

/-- Witness for C8 at the concrete raw text "x". -/
theorem c8_deterministic_witness :
    (parse (toL "x")).description = (parse (toL "x")).description ∧
    (parse (toL "x")).social_post = (parse (toL "x")).social_post ∧
    (parse (toL "x")).hashtags = (parse (toL "x")).hashtags :=
  c8_deterministic (toL "x") (toL "x") rfl

/-- C9: when no delimiter-separated segment contains the bold
product-description marker, the returned description is the (non-empty)
default placeholder, and symmetrically for the social post; since the
defaults are non-empty, the falsiness-guarded fallback passes cannot fire,
even when the plain marker substrings occur in the text. -/
theorem c9_no_bold_marker_keeps_defaults (t : List Char) :
    ((∀ p ∈ splitOn delimiter t, containsSub mPD p = false) →
      (parse t).description = defaultDescription) ∧
    ((∀ p ∈ splitOn delimiter t, containsSub mSMP p = false) →
      (parse t).social_post = defaultSocialPost) := by
  constructor
  · intro h
    have h1 : (segmentPass (splitOn delimiter t)).description = defaultDescription := by
      rw [segmentPass, foldl_segStep_description initState h]; rfl
    have h2 : (hashtagFallback t (segmentPass (splitOn delimiter t))).description =
        defaultDescription := by
      rw [hashtagFallback_description, h1]
    have h3 : descFallback t (hashtagFallback t (segmentPass (splitOn delimiter t))) =
        hashtagFallback t (segmentPass (splitOn delimiter t)) :=
      descFallback_skip (by rw [h2]; decide)
    rw [parse, socialFallback_description, h3, h2]
  · intro h
    have h1 : (segmentPass (splitOn delimiter t)).social_post = defaultSocialPost := by
      rw [segmentPass, foldl_segStep_social initState h]; rfl
    have h2 : (hashtagFallback t (segmentPass (splitOn delimiter t))).social_post =
        defaultSocialPost := by
      rw [hashtagFallback_social, h1]
    have h3 : (descFallback t (hashtagFallback t (segmentPass (splitOn delimiter t)))).social_post =
        defaultSocialPost := by
      rw [descFallback_social, h2]
    rw [parse, socialFallback_skip (by rw [h3]; decide), h3]

/-- Witness for C9 at a raw text containing both plain marker substrings but
no bold marker. -/
theorem c9_no_bold_marker_witness :
    (parse (toL "Product Description: x and Social Media Post: y")).description =
      defaultDescription ∧
    (parse (toL "Product Description: x and Social Media Post: y")).social_post =
      defaultSocialPost :=
  ⟨(c9_no_bold_marker_keeps_defaults
      (toL "Product Description: x and Social Media Post: y")).1 (by decide),
   (c9_no_bold_marker_keeps_defaults
      (toL "Product Description: x and Social Media Post: y")).2 (by decide)⟩

/-- C10: every element of the returned hashtag list is a non-empty token
containing no whitespace character. -/
theorem c10_hashtags_tokens_good (t tok : List Char)
    (h : tok ∈ (parse t).hashtags) : goodToken tok = true := by
  have hstep : ∀ (st : ParsedCopy) (p : List Char),
      (∀ tk ∈ st.hashtags, goodToken tk = true) →
      ∀ tk ∈ (segStep st p).hashtags, goodToken tk = true := by
    intro st p hst tk htk
    rw [segStep] at htk
    by_cases h1 : containsSub mPD p = true
    · rw [if_pos h1] at htk; exact hst tk htk
    · rw [if_neg h1] at htk
      by_cases h2 : containsSub mSMP p = true
      · rw [if_pos h2] at htk; exact hst tk htk
      · rw [if_neg h2] at htk
        by_cases h3 : containsSub mHT p = true
        · rw [if_pos h3] at htk; exact splitWs_good htk
        · rw [if_neg h3] at htk; exact hst tk htk
  have hfold : ∀ (ps : List (List Char)) (st : ParsedCopy),
      (∀ tk ∈ st.hashtags, goodToken tk = true) →
      ∀ tk ∈ (ps.foldl segStep st).hashtags, goodToken tk = true := by
    intro ps
    induction ps with
    | nil => intro st hst; exact hst
    | cons p ps ih =>
      intro st hst
      rw [List.foldl_cons]
      exact ih (segStep st p) (hstep st p hst)
  have hfb : ∀ st : ParsedCopy, (∀ tk ∈ st.hashtags, goodToken tk = true) →
      ∀ tk ∈ (hashtagFallback t st).hashtags, goodToken tk = true := by
    intro st hst tk htk
    rw [hashtagFallback] at htk
    split at htk
    · split at htk
      · exact splitWs_good htk
      · exact hst tk htk
    · exact hst tk htk
  have hinit : ∀ tk ∈ initState.hashtags, goodToken tk = true := by
    intro tk htk
    simp [initState] at htk
  rw [parse, socialFallback_hashtags, descFallback_hashtags] at h
  exact hfb (segmentPass (splitOn delimiter t))
    (hfold (splitOn delimiter t) initState hinit) tok h

/-- Witness for C10 at a concrete raw text with a parsed hashtag section. -/
theorem c10_hashtags_tokens_good_witness : goodToken (toL "#a") = true :=
  c10_hashtags_tokens_good (toL "**Hashtags:** #a #b") (toL "#a") (by decide)

/-- C2 counterexample: a single segment containing both the bold
product-description marker and the bold social-media marker does not assign
the social-post field (the loop body is an if/elif chain, so only the
description branch fires): the parse leaves social_post at its default,
not at the marker-stripped trimmed segment the claim dictates. -/
theorem c2_single_segment_two_markers_cex :
    containsSub mSMP (toL "**Product Description:** A **Social Media Post:** B") = true ∧
    (parse (toL "**Product Description:** A **Social Media Post:** B")).social_post =
      defaultSocialPost ∧
    strip (removeAll mSMP (toL "**Product Description:** A **Social Media Post:** B")) ≠
      defaultSocialPost := by
  decide

/-- C2 amended: segments are tested independently for marker containment,
but through an if/elif chain with priority description, social post,
hashtags: a segment containing the product-description marker assigns only
the description and leaves social_post and hashtags untouched; across
segments the last segment containing that marker determines the final
description. -/
theorem c2_segment_pass_last_match_wins (ps1 ps2 : List (List Char)) (p : List Char)
    (h1 : containsSub mPD p = true)
    (h2 : ∀ q ∈ ps2, containsSub mPD q = false) :
    (segmentPass (ps1 ++ p :: ps2)).description = strip (removeAll mPD p) ∧
    ∀ st : ParsedCopy, (segStep st p).social_post = st.social_post ∧
      (segStep st p).hashtags = st.hashtags := by
  constructor
  · rw [segmentPass, List.foldl_append, List.foldl_cons,
      foldl_segStep_description (segStep (ps1.foldl segStep initState) p) h2,
      segStep, if_pos h1]
  · intro st
    exact ⟨segStep_social_of_mPD h1, segStep_hashtags_of_mPD h1⟩

/-- Witness for the amended C2 at concrete segments: the later of two
description-marker segments wins, and the matching segment leaves the other
two fields of any state alone. -/
theorem c2_segment_pass_last_match_wins_witness :
    (segmentPass ([toL "**Product Description:** old"] ++
        (toL "**Product Description:** new") :: [toL " plain tail "])).description =
      strip (removeAll mPD (toL "**Product Description:** new")) ∧
    (segStep initState (toL "**Product Description:** new")).social_post =
      initState.social_post ∧
    (segStep initState (toL "**Product Description:** new")).hashtags =
      initState.hashtags :=
  ⟨(c2_segment_pass_last_match_wins [toL "**Product Description:** old"]
      [toL " plain tail "] (toL "**Product Description:** new")
      (by decide) (by decide)).1,
   (c2_segment_pass_last_match_wins [toL "**Product Description:** old"]
      [toL " plain tail "] (toL "**Product Description:** new")
      (by decide) (by decide)).2 initState⟩

/-- C3 counterexample: the fallback test is case sensitive.  A raw text
containing the lower-case substring "hashtags: #x #y" (so the claimed
case-insensitive condition holds) still yields an empty hashtag list, not
the tokens the claim dictates. -/
theorem c3_case_sensitivity_cex :
    containsSub (toL "hashtags:") (toL "hashtags: #x #y") = true ∧
    (parse (toL "hashtags: #x #y")).hashtags = [] := by
  decide

/-- C3 amended: the hashtags fallback fires if and only if the segment pass
left hashtags empty and the exact, case-sensitive substring "Hashtags:"
occurs in the raw text; it then yields the whitespace tokens of the trimmed
text after the last occurrence (leaving hashtags unchanged otherwise), and
the delimiter-free text "Hashtags: #x #y" parses to default description and
social post with hashtags ["#x", "#y"]. -/
theorem c3_hashtag_fallback_case_sensitive (t : List Char) :
    ((segmentPass (splitOn delimiter t)).hashtags = [] ∧ containsSub plainHT t = true →
      (parse t).hashtags = splitWs (strip (lastAfter plainHT t))) ∧
    (¬((segmentPass (splitOn delimiter t)).hashtags = [] ∧ containsSub plainHT t = true) →
      (parse t).hashtags = (segmentPass (splitOn delimiter t)).hashtags) ∧
    parse (toL "Hashtags: #x #y") =
      ⟨defaultDescription, defaultSocialPost, [toL "#x", toL "#y"]⟩ := by
  refine ⟨?_, ?_, by decide⟩
  · intro hc
    rw [parse, socialFallback_hashtags, descFallback_hashtags, hashtagFallback, if_pos hc]
    by_cases hline : strip (lastAfter plainHT t) ≠ []
    · rw [if_pos hline]
    · rw [if_neg hline]
      push_neg at hline
      rw [hc.1, hline]
      rfl
  · intro hc
    rw [parse, socialFallback_hashtags, descFallback_hashtags, hashtagFallback, if_neg hc]

/-- Witness for the amended C3 at the concrete raw text "Hashtags: #z". -/
theorem c3_hashtag_fallback_case_sensitive_witness :
    (parse (toL "Hashtags: #z")).hashtags =
      splitWs (strip (lastAfter plainHT (toL "Hashtags: #z"))) :=
  (c3_hashtag_fallback_case_sensitive (toL "Hashtags: #z")).1 (by decide)

/-- C5 counterexample: marker removal deletes every occurrence of the bold
hashtags marker from the segment, so a token can be glued together from
characters that are not contiguous in the source: the returned token "ab"
is not even a substring of the raw text, refuting the verbatim-token claim. -/
theorem c5_verbatim_cex :
    (parse (toL "**Hashtags:** a**Hashtags:**b")).hashtags = [toL "ab"] ∧
    containsSub (toL "ab") (toL "**Hashtags:** a**Hashtags:**b") = false := by
  decide

/-- C5 amended: when the bold hashtags marker introduces the segment and
does not reoccur inside the section body, the returned hashtags are exactly
the whitespace tokens of the body, verbatim and in source order, with no
normalisation, deduplication, or syntax validation. -/
theorem c5_hashtags_tokens_of_clean_body (b : List Char)
    (h0 : containsSub delimiter (mHT ++ b) = false)
    (h1 : containsSub mPD (mHT ++ b) = false)
    (h2 : containsSub mSMP (mHT ++ b) = false)
    (h3 : containsSub mHT b = false)
    (h4 : splitWs b ≠ []) :
    (parse (mHT ++ b)).hashtags = splitWs b := by
  have hsplit : splitOn delimiter (mHT ++ b) = [mHT ++ b] :=
    splitOn_no_occ (by decide) h0
  have hpre : containsSub mHT (mHT ++ b) = true :=
    containsSub_of_leading (List.prefix_append _ _)
  have hseg : segmentPass [mHT ++ b] = { initState with hashtags := splitWs b } := by
    rw [segmentPass, List.foldl_cons, List.foldl_nil, segStep, if_neg (by simp [h1]),
      if_neg (by simp [h2]), if_pos hpre, removeAll_marker_clean (by decide) h3,
      splitWs_strip]
  rw [parse, socialFallback_hashtags, descFallback_hashtags, hsplit, hseg,
    hashtagFallback_skip (show splitWs b ≠ [] from h4)]

/-- Witness for the amended C5 at the claim's example section
"**Hashtags:** #a #b  #c". -/
theorem c5_hashtags_tokens_of_clean_body_witness :
    (parse (mHT ++ toL " #a #b  #c")).hashtags = [toL "#a", toL "#b", toL "#c"] :=
  (c5_hashtags_tokens_of_clean_body (toL " #a #b  #c") (by decide) (by decide)
    (by decide) (by decide) (by decide)).trans (by decide)

/-- C1 counterexample: a well-formed three-section reply whose description
section body is a single newline.  The claim dictates description = trimmed
text between the description marker and the next delimiter, here the empty
string; the code instead falls through to the plain-marker fallback (the
marker-stripped segment trims to the falsy empty string) and returns the
text between the plain markers, asterisks and delimiter included. -/
theorem c1_blank_section_cex :
    (parse (toL
      "**Product Description:**\n---\n**Social Media Post:** B\n---\n**Hashtags:** #x")).description =
      toL "**\n---\n**" ∧
    strip (toL "\n") = [] := by
  decide

/-- C1 amended: for a reply made of the three marker-led sections in order,
separated by the delimiter, where no section body contains the delimiter or
a marker again and every section body has non-whitespace content (so no
falsy-guard fallback fires), the parse returns the trimmed text between
each of the first two markers and the following delimiter, and the
whitespace tokens of the text after the hashtags marker. -/
theorem c1_wellformed_sections (b1 b2 b3 : List Char)
    (hd1 : containsSub delimiter ((mPD ++ b1) ++ delimiter.dropLast) = false)
    (hd2 : containsSub delimiter ((mSMP ++ b2) ++ delimiter.dropLast) = false)
    (hd3 : containsSub delimiter (mHT ++ b3) = false)
    (hm1 : containsSub mPD b1 = false)
    (hm2 : containsSub mPD (mSMP ++ b2) = false)
    (hm3 : containsSub mSMP b2 = false)
    (hm4 : containsSub mPD (mHT ++ b3) = false)
    (hm5 : containsSub mSMP (mHT ++ b3) = false)
    (hm6 : containsSub mHT b3 = false)
    (hb1 : strip b1 ≠ [])
    (hb2 : strip b2 ≠ [])
    (hb3 : splitWs b3 ≠ []) :
    parse ((mPD ++ b1) ++ (delimiter ++ ((mSMP ++ b2) ++ (delimiter ++ (mHT ++ b3))))) =
      ⟨strip b1, strip b2, splitWs b3⟩ := by
  have hdel : delimiter ≠ [] := by decide
  have hsplit : splitOn delimiter
      ((mPD ++ b1) ++ (delimiter ++ ((mSMP ++ b2) ++ (delimiter ++ (mHT ++ b3))))) =
      [mPD ++ b1, mSMP ++ b2, mHT ++ b3] := by
    rw [splitOn_boundary hdel (mPD ++ b1) _ hd1,
      splitOn_boundary hdel (mSMP ++ b2) _ hd2,
      splitOn_no_occ hdel hd3]
  have s1eq : segStep initState (mPD ++ b1) = { initState with description := strip b1 } := by
    rw [segStep, if_pos (containsSub_of_leading (List.prefix_append mPD b1)),
      removeAll_marker_clean (by decide) hm1]
  have s2eq : segStep { initState with description := strip b1 } (mSMP ++ b2) =
      ⟨strip b1, strip b2, []⟩ := by
    rw [segStep, if_neg (by simp [hm2]),
      if_pos (containsSub_of_leading (List.prefix_append mSMP b2)),
      removeAll_marker_clean (by decide) hm3]
    rfl
  have s3eq : segStep (⟨strip b1, strip b2, []⟩ : ParsedCopy) (mHT ++ b3) =
      ⟨strip b1, strip b2, splitWs b3⟩ := by
    rw [segStep, if_neg (by simp [hm4]), if_neg (by simp [hm5]),
      if_pos (containsSub_of_leading (List.prefix_append mHT b3)),
      removeAll_marker_clean (by decide) hm6, splitWs_strip]
  have hseg : segmentPass [mPD ++ b1, mSMP ++ b2, mHT ++ b3] =
      ⟨strip b1, strip b2, splitWs b3⟩ := by
    rw [segmentPass, List.foldl_cons, s1eq, List.foldl_cons, s2eq, List.foldl_cons, s3eq,
      List.foldl_nil]
  rw [parse, hsplit, hseg,
    hashtagFallback_skip (show splitWs b3 ≠ [] from hb3),
    descFallback_skip (show strip b1 ≠ [] from hb1),
    socialFallback_skip (show strip b2 ≠ [] from hb2)]

/-- Witness for the amended C1 at a concrete well-formed three-section
reply with non-blank section bodies. -/
theorem c1_wellformed_sections_witness :
    parse ((mPD ++ toL "\nA soft glow.\n") ++
      (delimiter ++ ((mSMP ++ toL "\nCome see!\n") ++
        (delimiter ++ (mHT ++ toL "\n#x #y\n"))))) =
      ⟨strip (toL "\nA soft glow.\n"), strip (toL "\nCome see!\n"),
        splitWs (toL "\n#x #y\n")⟩ :=
  c1_wellformed_sections (toL "\nA soft glow.\n") (toL "\nCome see!\n") (toL "\n#x #y\n")
    (by decide) (by decide) (by decide) (by decide) (by decide) (by decide)
    (by decide) (by decide) (by decide) (by decide) (by decide) (by decide)
